import Mathlib

/-!
Shallow embedding of `src/hailort/libhailort/src/core_op/resource_manager/resource_manager.cpp`
(hailort). Pure data and control flow of the functions under verification are
translated into executable Lean definitions; external collaborators
(firmware control layer, descriptor-list primitives, the channel allocator,
`ConfigBuffer::create`) are passed in as oracle functions, mirroring the
narrow interfaces the source consumes.
-/

namespace HailoRT

/-- Status codes used by the translated functions (subset of `hailo_status`).
`OTHER n` stands for any further status value an external collaborator may
return. -/
inductive HailoStatus where
  | SUCCESS
  | INVALID_ARGUMENT
  | INTERNAL_FAILURE
  | NOT_FOUND
  | INVALID_CONTEXT_COUNT
  | STREAM_ABORTED_BY_USER
  | STREAM_NOT_ACTIVATED
  | OTHER (n : Nat)
  deriving DecidableEq, Repr

/-- `vdma::ChannelId`: (engine_index, channel_index). -/
structure ChannelId where
  engine_index : Nat
  channel_index : Nat
  deriving DecidableEq, Repr

/-- `EdgeLayer` as used by `ContextResources::validate_edge_layers`: only the
channel id is inspected there; the stream index stands for the rest of the
layer descriptor. -/
structure EdgeLayer where
  channel_id : ChannelId
  stream_index : Nat
  deriving DecidableEq, Repr

/-- Loop body of `ContextResources::validate_edge_layers`: walks the edge
layers keeping the set of channel ids seen so far (`std::set` modelled as a
list with membership), failing with `HAILO_INTERNAL_FAILURE` on the first
repeated id. -/
def validate_edge_layers_aux (used : List ChannelId) : List EdgeLayer → HailoStatus
  | [] => .SUCCESS
  | e :: rest =>
    if e.channel_id ∈ used then .INTERNAL_FAILURE
    else validate_edge_layers_aux (e.channel_id :: used) rest

/-- `ContextResources::validate_edge_layers` (resource_manager.cpp:122-132). -/
def validate_edge_layers (edge_layers : List EdgeLayer) : HailoStatus :=
  validate_edge_layers_aux [] edge_layers

/-- `HAILO_DEFAULT_BATCH_SIZE`. Modelled from the spec: the numeric value
lives in a public header outside src/; the spec calls it the
"default-batch-size sentinel" that `get_network_batch_size` substitutes
away (hailort defines it as 0). -/
def HAILO_DEFAULT_BATCH_SIZE : Nat := 0

/-- `DEFAULT_ACTUAL_BATCH_SIZE`. Modelled from the spec: the "fixed actual
default batch size" substituted for the sentinel; defined in a header
outside src/ (hailort defines it as 1). -/
def DEFAULT_ACTUAL_BATCH_SIZE : Nat := 1

/-- Configured per-network parameters: `m_config_params.network_params_by_name`
reduced to the only field read here, `batch_size`. A `std::map` iterated in
key order is modelled as an association list with unique keys. -/
abbrev NetworkParams := List (String × Nat)

/-- `ResourcesManager::get_network_batch_size` (resource_manager.cpp:503-519):
first matching configured entry wins; the sentinel batch size is replaced by
the actual default; an unknown name fails with `HAILO_NOT_FOUND`. -/
def get_network_batch_size (params : NetworkParams) (network_name : String) :
    Except HailoStatus Nat :=
  match params.find? (fun p => p.fst == network_name) with
  | some p =>
    .ok (if p.snd = HAILO_DEFAULT_BATCH_SIZE then DEFAULT_ACTUAL_BATCH_SIZE else p.snd)
  | none => .error .NOT_FOUND

/-- The inner index scan of `ResourcesManager::fill_network_batch_size`
(resource_manager.cpp:286-294): position of the first entry of
`m_network_index_map` equal to the configured name, if any. -/
def find_network_index (index_map : List String) (network_name : String) : Option Nat :=
  match index_map with
  | [] => none
  | nm :: rest =>
    if nm = network_name then some 0
    else (find_network_index rest network_name).map Nat.succ

/-- Loop of `ResourcesManager::fill_network_batch_size`
(resource_manager.cpp:283-299) over the configured networks, threading the
`batch_size` array (entries never written stay as they were; `none` encodes
an entry the function left unset). -/
def fill_network_batch_size_go (params : NetworkParams) (index_map : List String) :
    NetworkParams → List (Option Nat) → Except HailoStatus (List (Option Nat))
  | [], arr => .ok arr
  | p :: rest, arr =>
    match find_network_index index_map p.fst with
    | some network_index =>
      match get_network_batch_size params p.fst with
      | .ok batch_size =>
        fill_network_batch_size_go params index_map rest (arr.set network_index (some batch_size))
      | .error e => .error e
    | none => .error .NOT_FOUND

/-- `ResourcesManager::fill_network_batch_size` (resource_manager.cpp:280-302):
fills the application-header batch-size array at each configured network's
position in the insertion-ordered network-name table. The `networks_count`
field it also sets is `params.length`. -/
def fill_network_batch_size (params : NetworkParams) (index_map : List String)
    (arr : List (Option Nat)) : Except HailoStatus (List (Option Nat)) :=
  fill_network_batch_size_go params index_map params arr

/-- One record of `IrqData::channels_irq_data`. -/
structure ChannelIrqData where
  channel_id : ChannelId
  is_active : Bool
  host_error : Nat
  device_error : Nat
  desc_num_processed : Nat
  deriving DecidableEq, Repr

/-- `ResourcesManager::process_interrupts` (resource_manager.cpp:311-341).
`registered_channels` is the key set of `m_boundary_channels`;
`trigger_channel_completion` is the boundary channel's completion trigger,
whose status is only inspected for logging. The result is the ordered list
of completion-trigger invocations (channel id, processed descriptor count). -/
def process_interrupts (registered_channels : List ChannelId)
    (trigger_channel_completion : ChannelId → Nat → HailoStatus) :
    List ChannelIrqData → List (ChannelId × Nat)
  | [] => []
  | record :: rest =>
    if record.channel_id ∉ registered_channels then
      -- no such boundary channel: log and continue
      process_interrupts registered_channels trigger_channel_completion rest
    else if record.host_error ≠ 0 ∨ record.device_error ≠ 0 then
      -- error on channel: log at critical severity and continue
      process_interrupts registered_channels trigger_channel_completion rest
    else if ¬ record.is_active then
      -- channel aborted by external source: log and continue
      process_interrupts registered_channels trigger_channel_completion rest
    else
      -- statuses other than SUCCESS / STREAM_ABORTED_BY_USER / STREAM_NOT_ACTIVATED
      -- are only logged; processing always continues with the remaining records
      let _status := trigger_channel_completion record.channel_id record.desc_num_processed
      (record.channel_id, record.desc_num_processed) ::
        process_interrupts registered_channels trigger_channel_completion rest

/-- `CONTROL_PROTOCOL__CONTEXT_SWITCH_CONTEXT_TYPE_COUNT`. Modelled from the
spec: the context-type enumeration (preliminary, dynamic, ...) lives in a
control-protocol header outside src/; only `type < COUNT` is checked here. -/
def CONTEXT_SWITCH_CONTEXT_TYPE_COUNT : Nat := 4

/-- `CONTROL_PROTOCOL__CONTEXT_SWITCH_CONTEXT_TYPE_DYNAMIC`. Modelled from
the spec: the dynamic stage type tag (only equality with it is tested). -/
def CONTEXT_SWITCH_CONTEXT_TYPE_DYNAMIC : Nat := 1

/-- Per-config-stream buffer descriptor (opaque payload of
`ConfigBufferInfoMap` entries). -/
abbrev ConfigBufferInfo := Nat

/-- A constructed `ConfigBuffer` (external type): channel id it is bound to
plus its descriptor. -/
structure ConfigBuffer where
  channel_id : ChannelId
  info : ConfigBufferInfo
  deriving DecidableEq, Repr

/-- The construction loop of `ContextResources::create`
(resource_manager.cpp:23-30): builds one `ConfigBuffer` per config stream
index from the shared channel ids, `cfg_create` standing for the external
`ConfigBuffer::create`. The empty-ids case with remaining infos is
unreachable under the preceding size check. -/
def create_config_buffers
    (cfg_create : ChannelId → ConfigBufferInfo → Except HailoStatus ConfigBuffer) :
    List ChannelId → List ConfigBufferInfo → Except HailoStatus (List ConfigBuffer)
  | _, [] => .ok []
  | [], _ :: _ => .error .INTERNAL_FAILURE
  | cid :: cids, info :: infos =>
    match cfg_create cid info with
    | .ok buffer_resource =>
      match create_config_buffers cfg_create cids infos with
      | .ok buffers => .ok (buffer_resource :: buffers)
      | .error e => .error e
    | .error e => .error e

/-- `ContextResources`: one stage's resources (builder controls, config
buffers, edge layers; DDR pairs are not needed by the claims). -/
structure ContextResources where
  context_type : Nat
  config_buffers : List ConfigBuffer
  edge_layers : List EdgeLayer
  controls : List Nat
  deriving DecidableEq, Repr

/-- `ContextResources::create` (resource_manager.cpp:13-33): invalid type
fails with `HAILO_INVALID_ARGUMENT`; more requested config buffers than
pre-allocated config channel ids fails with `HAILO_INTERNAL_FAILURE`;
otherwise the config buffers are built. -/
def ContextResources_create
    (cfg_create : ChannelId → ConfigBufferInfo → Except HailoStatus ConfigBuffer)
    (context_type : Nat) (config_channels_ids : List ChannelId)
    (config_buffer_infos : List ConfigBufferInfo) : Except HailoStatus ContextResources :=
  if ¬ (context_type < CONTEXT_SWITCH_CONTEXT_TYPE_COUNT) then .error .INVALID_ARGUMENT
  else if ¬ (config_buffer_infos.length ≤ config_channels_ids.length) then
    .error .INTERNAL_FAILURE
  else
    match create_config_buffers cfg_create config_channels_ids config_buffer_infos with
    | .ok config_buffers =>
      .ok { context_type := context_type, config_buffers := config_buffers,
            edge_layers := [], controls := [] }
    | .error e => .error e

/-- `std::numeric_limits of uint8_t, max()`: bound on the total-stage counter. -/
def UINT8_MAX : Nat := 255

/-- `UINT16_MAX`. -/
def UINT16_MAX : Nat := 65535

/-- The `ResourcesManager` state read and written by the translated member
functions (fields irrelevant to the claims are omitted). -/
structure ResourcesManager where
  is_configured : Bool
  total_context_count : Nat
  dynamic_context_count : Nat
  contexts_resources : List ContextResources
  network_params_by_name : NetworkParams
  network_index_map : List String
  preliminary_run_asap : Bool
  desc_max_page_size : Nat
  config_channels_ids : List ChannelId
  deriving DecidableEq, Repr

/-- `ResourcesManager::add_new_context` (resource_manager.cpp:455-470). -/
def add_new_context
    (cfg_create : ChannelId → ConfigBufferInfo → Except HailoStatus ConfigBuffer)
    (rm : ResourcesManager) (context_type : Nat) (config_info : List ConfigBufferInfo) :
    Except HailoStatus ResourcesManager :=
  if ¬ (rm.total_context_count < UINT8_MAX) then .error .INVALID_CONTEXT_COUNT
  else
    match ContextResources_create cfg_create context_type rm.config_channels_ids config_info with
    | .ok context_resources =>
      .ok { rm with
        contexts_resources := rm.contexts_resources ++ [context_resources],
        total_context_count := rm.total_context_count + 1,
        dynamic_context_count :=
          if context_type = CONTEXT_SWITCH_CONTEXT_TYPE_DYNAMIC then
            rm.dynamic_context_count + 1
          else rm.dynamic_context_count }
    | .error e => .error e

/-- `vdma::DEFAULT_DESC_PAGE_SIZE`. Modelled from the spec: the "fixed
default page size" the shared config-buffer size is clamped to; defined in
a header outside src/ (hailort defines it as 512). -/
def DEFAULT_DESC_PAGE_SIZE : Nat := 512

/-- `CONTROL_PROTOCOL__application_header_t`, with the per-network-index
batch-size array as optional entries (`none` = never written). -/
structure AppHeader where
  dynamic_contexts_count : Nat
  preliminary_run_asap : Bool
  is_abbale_supported : Bool
  networks_count : Nat
  batch_size : List (Option Nat)
  csm_buffer_size : Nat
  deriving DecidableEq, Repr

/-- `ResourcesManager::get_control_core_op_header` (resource_manager.cpp:438-453),
composing `fill_infer_features`, `fill_validation_features` (always
`ABBALE_NOT_SUPPORTED = false`), `fill_network_batch_size` and
`fill_csm_buffer_size` over a zero-initialized header. -/
def get_control_core_op_header (rm : ResourcesManager) : Except HailoStatus AppHeader :=
  match fill_network_batch_size rm.network_params_by_name rm.network_index_map
      (List.replicate rm.network_index_map.length none) with
  | .ok batch_size_arr =>
    .ok { dynamic_contexts_count := rm.dynamic_context_count,
          preliminary_run_asap := rm.preliminary_run_asap,
          is_abbale_supported := false,
          networks_count := rm.network_params_by_name.length,
          batch_size := batch_size_arr,
          csm_buffer_size := min rm.desc_max_page_size DEFAULT_DESC_PAGE_SIZE }
  | .error e => .error e

/-- A message transmitted to the firmware control layer during `configure`. -/
inductive FwMessage where
  | setHeader (header : AppHeader)
  | setContextInfo (controls : List Nat)
  deriving DecidableEq, Repr

/-- Oracle for the firmware control layer:
`Control::context_switch_set_network_group_header` and
`Control::context_switch_set_context_info`. -/
structure FwOracle where
  send_header : AppHeader → HailoStatus
  send_context : List Nat → HailoStatus

/-- The per-stage transmission loop of `ResourcesManager::configure`
(resource_manager.cpp:554-557): stops at the first failing transmission. -/
def configure_send_contexts (fw : FwOracle) :
    List ContextResources → List FwMessage → HailoStatus × List FwMessage
  | [], sent => (.SUCCESS, sent)
  | context :: rest, sent =>
    let s := fw.send_context context.controls
    if s = .SUCCESS then
      configure_send_contexts fw rest (sent ++ [.setContextInfo context.controls])
    else (s, sent ++ [.setContextInfo context.controls])

/-- `ResourcesManager::configure` (resource_manager.cpp:543-560): one-shot
latch checked first and set before anything is assembled or transmitted;
then the application header is built and sent, then each stage's controls
in stage order. Returns (status, new manager state, transcript of firmware
messages in transmission order). -/
def configure (fw : FwOracle) (rm : ResourcesManager) :
    HailoStatus × ResourcesManager × List FwMessage :=
  if rm.is_configured then (.INTERNAL_FAILURE, rm, [])
  else
    let rm1 := { rm with is_configured := true }
    match get_control_core_op_header rm1 with
    | .error e => (e, rm1, [])
    | .ok header =>
      let s := fw.send_header header
      if s = .SUCCESS then
        let res := configure_send_contexts fw rm1.contexts_resources [.setHeader header]
        (res.fst, rm1, res.snd)
      else (s, rm1, [.setHeader header])

/-- `HailoRTDriver::DmaType`: PCIe exposes a single DMA engine, DRAM several. -/
inductive DmaType where
  | PCIE
  | DRAM
  deriving DecidableEq, Repr

/-- `HailoRTDriver::DmaDirection`. -/
inductive DmaDirection where
  | H2D
  | D2H
  deriving DecidableEq, Repr

/-- `LayerType` tags of layer identifiers. -/
inductive LayerType where
  | NOT_SET
  | BOUNDARY
  | INTER_CONTEXT
  | DDR
  | CFG
  deriving DecidableEq, Repr

/-- `LayerIdentifier` = (layer kind, name, index). -/
abbrev LayerIdentifier := LayerType × String × Nat

/-- `vdma::DEFAULT_ENGINE_INDEX`. Modelled from the spec: the single default
engine used on single-engine transports; defined in a header outside src/
(hailort defines it as 0). -/
def DEFAULT_ENGINE_INDEX : Nat := 0

/-- `ResourcesManager::get_available_channel_id` (resource_manager.cpp:472-481):
on a PCIe DMA flavor (single engine) the requested engine index is replaced
by the default engine before delegating to the channel allocator, which is
external and passed as the oracle `allocator`. -/
def ResourcesManager_get_available_channel_id
    (allocator : LayerIdentifier → DmaDirection → Nat → Except HailoStatus ChannelId)
    (dma_type : DmaType) (layer_identifier : LayerIdentifier)
    (direction : DmaDirection) (engine_index : Nat) : Except HailoStatus ChannelId :=
  let engine_index := if dma_type = DmaType.PCIE then DEFAULT_ENGINE_INDEX else engine_index
  allocator layer_identifier direction engine_index

/-- Loop of `ResourcesManager::calc_hw_infer_batch_count`
(resource_manager.cpp:687-702): `batch_count` starts at `UINT16_MAX` and is
clamped by each layer's capacity. Each list entry is the result of the
external query `max_transfers(single_transfer_size * dynamic_batch_size)`
on that layer's boundary channel's descriptor list; `none` marks a layer
whose boundary channel lookup by stream name failed (`HAILO_NOT_FOUND`). -/
def calc_hw_infer_batch_count_go : List (Option Nat) → Nat → Except HailoStatus Nat
  | [], batch_count => .ok batch_count
  | none :: _, _ => .error .NOT_FOUND
  | some max_batch_transfers :: rest, batch_count =>
    calc_hw_infer_batch_count_go rest (min batch_count max_batch_transfers)

/-- `ResourcesManager::calc_hw_infer_batch_count` over the per-layer
capacities. -/
def calc_hw_infer_batch_count (layer_max_batch_transfers : List (Option Nat)) :
    Except HailoStatus Nat :=
  calc_hw_infer_batch_count_go layer_max_batch_transfers UINT16_MAX

/-- `vdma::InterruptsDomain` values used by the hardware-only flow. -/
inductive InterruptsDomain where
  | DEVICE
  | NONE
  deriving DecidableEq, Repr

/-- One `program_last_descriptor` call made by
`program_desc_for_hw_only_flow`: its loop indices, the interrupts domain it
passed, and the accumulated descriptor offset it started at. -/
structure DescProgramEvent where
  batch_index : Nat
  transfer_index : Nat
  interrupts_domain : InterruptsDomain
  desc_offset : Nat
  deriving DecidableEq, Repr

/-- The nested loop index sequence of `program_desc_for_hw_only_flow`:
(batch_index, transfer_index) pairs in iteration order. -/
def hw_only_flow_indices (batch_count dynamic_batch_size : Nat) : List (Nat × Nat) :=
  (List.range batch_count).flatMap
    (fun batch_index =>
      (List.range dynamic_batch_size).map (fun transfer_index => (batch_index, transfer_index)))

/-- Body of `ResourcesManager::program_desc_for_hw_only_flow`
(resource_manager.cpp:626-636): per transfer, the interrupts domain is
`DEVICE` exactly for the last transfer of a `dynamic_batch_size` group;
`program_last_descriptor` is the external descriptor-list primitive,
abstracted as an oracle from (single transfer size, accumulated offset) to
the number of descriptors programmed, whose failure aborts the whole call. -/
def program_desc_loop (program_last_descriptor : Nat → Nat → Except HailoStatus Nat)
    (single_transfer_size dynamic_batch_size : Nat) :
    List (Nat × Nat) → Nat → Except HailoStatus (List DescProgramEvent × Nat)
  | [], acc_desc_offset => .ok ([], acc_desc_offset)
  | (batch_index, transfer_index) :: rest, acc_desc_offset =>
    let last_desc_interrupts_domain :=
      if transfer_index = dynamic_batch_size - 1 then InterruptsDomain.DEVICE
      else InterruptsDomain.NONE
    match program_last_descriptor single_transfer_size acc_desc_offset with
    | .ok desc_count_local =>
      match program_desc_loop program_last_descriptor single_transfer_size dynamic_batch_size
          rest (acc_desc_offset + desc_count_local) with
      | .ok (events, final_offset) =>
        .ok (⟨batch_index, transfer_index, last_desc_interrupts_domain, acc_desc_offset⟩
               :: events, final_offset)
      | .error e => .error e
    | .error e => .error e

/-- `ResourcesManager::program_desc_for_hw_only_flow`
(resource_manager.cpp:622-640): runs the nested batch/transfer loops, then
checks the accumulated programmed-descriptor count fits in sixteen bits. -/
def program_desc_for_hw_only_flow
    (program_last_descriptor : Nat → Nat → Except HailoStatus Nat)
    (single_transfer_size dynamic_batch_size batch_count : Nat) :
    Except HailoStatus (List DescProgramEvent × Nat) :=
  match program_desc_loop program_last_descriptor single_transfer_size dynamic_batch_size
      (hw_only_flow_indices batch_count dynamic_batch_size) 0 with
  | .ok (events, acc_desc_offset) =>
    if acc_desc_offset ≤ UINT16_MAX then .ok (events, acc_desc_offset)
    else .error .INTERNAL_FAILURE
  | .error e => .error e

/-! ## Theorems -/

theorem validate_edge_layers_aux_eq (l : List EdgeLayer) : ∀ used : List ChannelId,
    validate_edge_layers_aux used l =
      if (l.map (fun e => e.channel_id)).Nodup ∧ ∀ e ∈ l, e.channel_id ∉ used
      then HailoStatus.SUCCESS else HailoStatus.INTERNAL_FAILURE := by
  induction l with
  | nil => intro used; simp [validate_edge_layers_aux]
  | cons e rest ih =>
    intro used
    by_cases hmem : e.channel_id ∈ used
    · rw [if_neg]
      · simp [validate_edge_layers_aux, hmem]
      · rintro ⟨-, hall⟩
        exact hall e (List.mem_cons_self e rest) hmem
    · have hstep : validate_edge_layers_aux used (e :: rest) =
          validate_edge_layers_aux (e.channel_id :: used) rest := by
        simp [validate_edge_layers_aux, hmem]
      rw [hstep, ih (e.channel_id :: used)]
      have hiff : ((rest.map (fun e2 => e2.channel_id)).Nodup ∧
            ∀ e2 ∈ rest, e2.channel_id ∉ e.channel_id :: used) ↔
          (((e :: rest).map (fun e2 => e2.channel_id)).Nodup ∧
            ∀ e2 ∈ e :: rest, e2.channel_id ∉ used) := by
        simp only [List.map_cons, List.nodup_cons, List.mem_cons, List.mem_map]
        constructor
        · rintro ⟨hnd, hall⟩
          refine ⟨⟨?_, hnd⟩, ?_⟩
          · rintro ⟨e2, he2, heq⟩
            exact (hall e2 he2) (Or.inl heq)
          · intro e2 he2
            rcases he2 with he2 | he2
            · exact he2 ▸ hmem
            · intro hin
              exact (hall e2 he2) (Or.inr hin)
        · rintro ⟨⟨hnotin, hnd⟩, hall⟩
          refine ⟨hnd, ?_⟩
          intro e2 he2 hin
          rcases hin with hin | hin
          · exact hnotin ⟨e2, he2, hin⟩
          · exact (hall e2 (Or.inr he2)) hin
      rw [if_congr hiff rfl rfl]

/-- C3: for every edge-layer list of a `ContextResources` instance,
`validate_edge_layers` returns the internal-failure status exactly when two
edge layers have equal channel ids, and returns success exactly when the
channel ids are pairwise distinct. -/
theorem c3_validate_edge_layers (edge_layers : List EdgeLayer) :
    (validate_edge_layers edge_layers = HailoStatus.INTERNAL_FAILURE ↔
      ¬ (edge_layers.map (fun e => e.channel_id)).Nodup)
    ∧ (validate_edge_layers edge_layers = HailoStatus.SUCCESS ↔
      (edge_layers.map (fun e => e.channel_id)).Nodup) := by
  have h := validate_edge_layers_aux_eq edge_layers []
  simp only [List.not_mem_nil, not_false_iff, implies_true, and_true] at h
  unfold validate_edge_layers
  rw [h]
  by_cases hnd : (edge_layers.map (fun e => e.channel_id)).Nodup
  · simp [hnd]
  · simp [hnd]

/-- C8: on a PCIe DMA flavor (the single-engine transport), the channel id
returned by `ResourcesManager::get_available_channel_id` does not depend on
the engine index the compiled program requested: the request is forced to
the single default engine before the allocator is consulted. -/
theorem c8_get_available_channel_id
    (allocator : LayerIdentifier → DmaDirection → Nat → Except HailoStatus ChannelId)
    (layer_identifier : LayerIdentifier) (direction : DmaDirection)
    (engine_index other_engine_index : Nat) :
    ResourcesManager_get_available_channel_id allocator DmaType.PCIE layer_identifier
        direction engine_index =
      ResourcesManager_get_available_channel_id allocator DmaType.PCIE layer_identifier
        direction other_engine_index
    ∧ ResourcesManager_get_available_channel_id allocator DmaType.PCIE layer_identifier
        direction engine_index =
      allocator layer_identifier direction DEFAULT_ENGINE_INDEX := by
  exact ⟨rfl, rfl⟩

theorem find_in_params_ok {params : NetworkParams} {name : String} (p : String × Nat)
    (hp : p ∈ params) (hname : p.fst = name) :
    ∃ v, get_network_batch_size params name = .ok v := by
  unfold get_network_batch_size
  have hsome : (params.find? (fun q => q.fst == name)).isSome := by
    rw [List.find?_isSome]
    exact ⟨p, hp, by simp [hname]⟩
  rcases Option.isSome_iff_exists.mp hsome with ⟨q, hq⟩
  rw [hq]
  exact ⟨_, rfl⟩

theorem find_first_unique {params : NetworkParams} {name : String} {b : Nat}
    (hnodup : (params.map Prod.fst).Nodup) (hmem : (name, b) ∈ params) :
    params.find? (fun q => q.fst == name) = some (name, b) := by
  induction params with
  | nil => simp at hmem
  | cons p ps ih =>
    simp only [List.map_cons, List.nodup_cons] at hnodup
    rcases List.mem_cons.mp hmem with hmem | hmem
    · rw [← hmem]
      simp [List.find?]
    · have hne : ¬ (p.fst == name) = true := by
        intro heq
        have hmem2 : name ∈ ps.map Prod.fst := List.mem_map.mpr ⟨(name, b), hmem, rfl⟩
        exact hnodup.1 (by rw [eq_of_beq heq]; exact hmem2)
      simp only [List.find?, hne]
      exact ih hnodup.2 hmem

/-- C10: `get_network_batch_size` never yields the default-batch-size
sentinel: a configured network whose configured batch size equals the
sentinel gets the fixed actual default batch size, any other configured
network gets its configured value, and a name absent from the configured
parameters fails with not-found. Consumers thus only ever see substituted
values. -/
theorem c10_get_network_batch_size (params : NetworkParams) (name : String)
    (hnodup : (params.map Prod.fst).Nodup) :
    (∀ v, get_network_batch_size params name = .ok v → v ≠ HAILO_DEFAULT_BATCH_SIZE)
    ∧ (∀ b, (name, b) ∈ params →
        get_network_batch_size params name =
          .ok (if b = HAILO_DEFAULT_BATCH_SIZE then DEFAULT_ACTUAL_BATCH_SIZE else b))
    ∧ (name ∉ params.map Prod.fst →
        get_network_batch_size params name = .error HailoStatus.NOT_FOUND) := by
  refine ⟨?_, ?_, ?_⟩
  · intro v hok
    unfold get_network_batch_size at hok
    cases hfind : params.find? (fun q => q.fst == name) with
    | none => rw [hfind] at hok; exact absurd hok (by simp)
    | some q =>
      rw [hfind] at hok
      have hv : v = if q.snd = HAILO_DEFAULT_BATCH_SIZE then DEFAULT_ACTUAL_BATCH_SIZE
          else q.snd := by
        simpa using hok.symm
      subst hv
      by_cases hq : q.snd = HAILO_DEFAULT_BATCH_SIZE
      · simp [hq, DEFAULT_ACTUAL_BATCH_SIZE, HAILO_DEFAULT_BATCH_SIZE]
      · simp [hq]
  · intro b hmem
    unfold get_network_batch_size
    rw [find_first_unique hnodup hmem]
  · intro habs
    unfold get_network_batch_size
    have hnone : params.find? (fun q => q.fst == name) = none := by
      rw [List.find?_eq_none]
      intro q hq hbeq
      exact habs (List.mem_map.mpr ⟨q, hq, eq_of_beq hbeq⟩)
    rw [hnone]

/-- Witness for C10 at a concrete input: the sentinel-configured network
reports the actual default batch size. -/
theorem c10_witness :
    ((([("a", (0 : Nat)), ("c", 2)] : NetworkParams).map Prod.fst).Nodup)
    ∧ get_network_batch_size [("a", 0), ("c", 2)] "a" =
        .ok (if 0 = HAILO_DEFAULT_BATCH_SIZE then DEFAULT_ACTUAL_BATCH_SIZE else 0) :=
  ⟨by decide,
    (c10_get_network_batch_size [("a", 0), ("c", 2)] "a" (by decide)).2.1 0
      (by simp)⟩

/-- C5: interrupt processing is per-record fault-isolated. The trigger
invocations made by `process_interrupts` are exactly one per record whose
channel id is registered, whose error bits are clear and which is active
(in batch order), and the invocations made do not depend on the statuses the
completion triggers return — no record's outcome stops the remaining
records. -/
theorem c5_process_interrupts (registered_channels : List ChannelId)
    (trigger_a trigger_b : ChannelId → Nat → HailoStatus)
    (records : List ChannelIrqData) :
    process_interrupts registered_channels trigger_a records =
      records.filterMap (fun r =>
        if r.channel_id ∈ registered_channels ∧ r.host_error = 0 ∧ r.device_error = 0 ∧
            r.is_active = true
        then some (r.channel_id, r.desc_num_processed) else none)
    ∧ process_interrupts registered_channels trigger_a records =
        process_interrupts registered_channels trigger_b records := by
  constructor
  · induction records with
    | nil => simp [process_interrupts]
    | cons r rest ih =>
      unfold process_interrupts
      rw [List.filterMap_cons]
      by_cases h1 : r.channel_id ∈ registered_channels <;>
        by_cases h2 : r.host_error = 0 <;>
        by_cases h3 : r.device_error = 0 <;>
        by_cases h4 : r.is_active <;>
        simp [h1, h2, h3, h4, ih]
  · induction records with
    | nil => rfl
    | cons r rest ih =>
      simp only [process_interrupts]
      split
      · exact ih
      · split
        · exact ih
        · split
          · exact ih
          · simp only [List.cons.injEq, true_and]
            exact ih

theorem configure_state_eq (fw : FwOracle) (rm : ResourcesManager) :
    (configure fw rm).snd.fst =
      if rm.is_configured then rm else { rm with is_configured := true } := by
  unfold configure
  by_cases h : rm.is_configured
  · simp [h]
  · simp only [h, if_false, Bool.false_eq_true, if_neg]
    cases hh : get_control_core_op_header { rm with is_configured := true } with
    | error e => simp
    | ok header =>
      simp only
      by_cases hs : fw.send_header header = HailoStatus.SUCCESS
      · simp [hs]
      · simp [hs]

theorem configure_of_configured (fw : FwOracle) (rm : ResourcesManager)
    (h : rm.is_configured = true) :
    configure fw rm = (HailoStatus.INTERNAL_FAILURE, rm, []) := by
  unfold configure
  simp [h]

/-- C9: every call to `configure` leaves the one-shot latch set — the latch
is flipped before anything is assembled or transmitted — so a second call
on the resulting manager always fails with internal-failure, transmits
nothing and leaves the state unchanged, even when the first call itself
failed. -/
theorem c9_configure_latch (fw fw2 : FwOracle) (rm : ResourcesManager) :
    ((configure fw rm).snd.fst.is_configured = true)
    ∧ configure fw2 (configure fw rm).snd.fst =
        (HailoStatus.INTERNAL_FAILURE, (configure fw rm).snd.fst, []) := by
  have hstate := configure_state_eq fw rm
  have hconf : (configure fw rm).snd.fst.is_configured = true := by
    rw [hstate]
    by_cases h : rm.is_configured
    · simp [h]
    · simp [h]
  exact ⟨hconf, configure_of_configured fw2 _ hconf⟩

theorem configure_send_contexts_all_success (fw : FwOracle)
    (contexts : List ContextResources)
    (h : ∀ c ∈ contexts, fw.send_context c.controls = HailoStatus.SUCCESS) :
    ∀ sent, configure_send_contexts fw contexts sent =
      (HailoStatus.SUCCESS,
        sent ++ contexts.map (fun c => FwMessage.setContextInfo c.controls)) := by
  induction contexts with
  | nil => intro sent; simp [configure_send_contexts]
  | cons c rest ih =>
    intro sent
    have hc := h c (List.mem_cons_self c rest)
    simp only [configure_send_contexts, hc, if_pos rfl]
    rw [ih (fun c2 hc2 => h c2 (List.mem_cons_of_mem c hc2))]
    simp

/-- C1: the first `configure` call on an unconfigured manager proceeds,
transmitting the application header and then each stage's controls in stage
order (given the header assembles and the firmware accepts every
transmission), and a second call on the resulting manager fails with
internal-failure, transmits nothing and leaves the manager state
unchanged. -/
theorem c1_configure (fw fw2 : FwOracle) (rm : ResourcesManager) (header : AppHeader)
    (hconf : rm.is_configured = false)
    (hheader : get_control_core_op_header { rm with is_configured := true } = .ok header)
    (hsend : fw.send_header header = HailoStatus.SUCCESS)
    (hctx : ∀ c ∈ rm.contexts_resources,
      fw.send_context c.controls = HailoStatus.SUCCESS) :
    configure fw rm =
      (HailoStatus.SUCCESS, { rm with is_configured := true },
        FwMessage.setHeader header ::
          rm.contexts_resources.map (fun c => FwMessage.setContextInfo c.controls))
    ∧ configure fw2 { rm with is_configured := true } =
        (HailoStatus.INTERNAL_FAILURE, { rm with is_configured := true }, []) := by
  constructor
  · unfold configure
    rw [hconf]
    simp only [Bool.false_eq_true, if_false, if_neg]
    rw [hheader]
    simp only [hsend, if_pos rfl]
    rw [configure_send_contexts_all_success fw rm.contexts_resources hctx]
    simp
  · unfold configure
    simp

/-- Witness for C1 at a concrete manager: one configured network, one stage
with controls `[5]`, an always-accepting firmware. -/
theorem c1_witness :
    ({ is_configured := false, total_context_count := 1, dynamic_context_count := 1,
       contexts_resources :=
         [{ context_type := 1, config_buffers := [], edge_layers := [], controls := [5] }],
       network_params_by_name := [("a", 4)], network_index_map := ["a"],
       preliminary_run_asap := false, desc_max_page_size := 1024,
       config_channels_ids := [] } : ResourcesManager).is_configured = false
    ∧ configure
        { send_header := fun _ => HailoStatus.SUCCESS,
          send_context := fun _ => HailoStatus.SUCCESS }
        { is_configured := false, total_context_count := 1, dynamic_context_count := 1,
          contexts_resources :=
            [{ context_type := 1, config_buffers := [], edge_layers := [], controls := [5] }],
          network_params_by_name := [("a", 4)], network_index_map := ["a"],
          preliminary_run_asap := false, desc_max_page_size := 1024,
          config_channels_ids := [] } =
      (HailoStatus.SUCCESS,
        { is_configured := true, total_context_count := 1, dynamic_context_count := 1,
          contexts_resources :=
            [{ context_type := 1, config_buffers := [], edge_layers := [], controls := [5] }],
          network_params_by_name := [("a", 4)], network_index_map := ["a"],
          preliminary_run_asap := false, desc_max_page_size := 1024,
          config_channels_ids := [] },
        [FwMessage.setHeader
          { dynamic_contexts_count := 1, preliminary_run_asap := false,
            is_abbale_supported := false, networks_count := 1,
            batch_size := [some 4], csm_buffer_size := 512 },
         FwMessage.setContextInfo [5]]) := by
  refine ⟨rfl, ?_⟩
  have h := (c1_configure
    { send_header := fun _ => HailoStatus.SUCCESS,
      send_context := fun _ => HailoStatus.SUCCESS }
    { send_header := fun _ => HailoStatus.SUCCESS,
      send_context := fun _ => HailoStatus.SUCCESS }
    { is_configured := false, total_context_count := 1, dynamic_context_count := 1,
      contexts_resources :=
        [{ context_type := 1, config_buffers := [], edge_layers := [], controls := [5] }],
      network_params_by_name := [("a", 4)], network_index_map := ["a"],
      preliminary_run_asap := false, desc_max_page_size := 1024,
      config_channels_ids := [] }
    { dynamic_contexts_count := 1, preliminary_run_asap := false,
      is_abbale_supported := false, networks_count := 1,
      batch_size := [some 4], csm_buffer_size := 512 }
    rfl rfl rfl (fun c hc => rfl)).1
  simpa using h

/-- C6 counterexample: with a valid context type, two requested config
buffers and a single pre-allocated config-channel id, `ContextResources::create`
fails with internal-failure, not invalid-argument as the claim states. -/
theorem c6_counterexample :
    ContextResources_create (fun cid info => .ok { channel_id := cid, info := info }) 0
        [{ engine_index := 0, channel_index := 0 }] [0, 0] =
      .error HailoStatus.INTERNAL_FAILURE
    ∧ HailoStatus.INTERNAL_FAILURE ≠ HailoStatus.INVALID_ARGUMENT :=
  ⟨rfl, by decide⟩

/-- C6 amended: building a stage fails with an internal-failure error
whenever the requested config-buffer count exceeds the number of
pre-allocated config-channel ids (both directly in `ContextResources::create`
and through `ResourcesManager::add_new_context`). -/
theorem c6_amended_create_internal_failure
    (cfg_create : ChannelId → ConfigBufferInfo → Except HailoStatus ConfigBuffer)
    (context_type : Nat) (config_channels_ids : List ChannelId)
    (config_buffer_infos : List ConfigBufferInfo)
    (htype : context_type < CONTEXT_SWITCH_CONTEXT_TYPE_COUNT)
    (hcount : config_channels_ids.length < config_buffer_infos.length) :
    ContextResources_create cfg_create context_type config_channels_ids
        config_buffer_infos = .error HailoStatus.INTERNAL_FAILURE
    ∧ (∀ rm : ResourcesManager, rm.total_context_count < UINT8_MAX →
        rm.config_channels_ids = config_channels_ids →
        add_new_context cfg_create rm context_type config_buffer_infos =
          .error HailoStatus.INTERNAL_FAILURE) := by
  have hcreate : ContextResources_create cfg_create context_type config_channels_ids
      config_buffer_infos = .error HailoStatus.INTERNAL_FAILURE := by
    unfold ContextResources_create
    rw [if_neg (by omega), if_pos (by omega)]
  refine ⟨hcreate, ?_⟩
  intro rm hcnt hids
  unfold add_new_context
  rw [if_neg (by omega), hids, hcreate]

/-- Witness for C6's amended claim: two config buffers requested against one
pre-allocated config-channel id. -/
theorem c6_witness :
    ((0 : Nat) < CONTEXT_SWITCH_CONTEXT_TYPE_COUNT
      ∧ ([{ engine_index := 0, channel_index := 0 }] : List ChannelId).length <
          ([0, 0] : List ConfigBufferInfo).length)
    ∧ ContextResources_create (fun cid info => .ok { channel_id := cid, info := info }) 0
        [{ engine_index := 0, channel_index := 0 }] [0, 0] =
      .error HailoStatus.INTERNAL_FAILURE :=
  ⟨⟨by decide, by decide⟩,
    (c6_amended_create_internal_failure
      (fun cid info => .ok { channel_id := cid, info := info }) 0
      [{ engine_index := 0, channel_index := 0 }] [0, 0] (by decide) (by decide)).1⟩

theorem calc_go_map_some (caps : List Nat) : ∀ a : Nat,
    calc_hw_infer_batch_count_go (caps.map some) a = .ok (caps.foldl min a) := by
  induction caps with
  | nil => intro a; simp [calc_hw_infer_batch_count_go]
  | cons c rest ih => intro a; simp [calc_hw_infer_batch_count_go, ih]

theorem foldl_min_le (caps : List Nat) : ∀ a : Nat,
    caps.foldl min a ≤ a ∧ ∀ c ∈ caps, caps.foldl min a ≤ c := by
  induction caps with
  | nil => intro a; exact ⟨le_refl a, by simp⟩
  | cons c rest ih =>
    intro a
    have h := ih (min a c)
    refine ⟨h.1.trans (min_le_left a c), ?_⟩
    intro d hd
    rcases List.mem_cons.mp hd with hd | hd
    · exact hd ▸ (h.1.trans (min_le_right a c))
    · exact h.2 d hd

theorem foldl_min_mem (caps : List Nat) : ∀ a : Nat,
    caps.foldl min a = a ∨ caps.foldl min a ∈ caps := by
  induction caps with
  | nil => intro a; exact Or.inl rfl
  | cons c rest ih =>
    intro a
    rcases ih (min a c) with h | h
    · rcases le_total a c with hac | hca
      · rw [List.foldl_cons, h, min_eq_left hac]
        exact Or.inl rfl
      · rw [List.foldl_cons, h, min_eq_right hca]
        exact Or.inr (List.mem_cons_self c rest)
    · rw [List.foldl_cons]
      exact Or.inr (List.mem_cons_of_mem c h)

/-- C4: on a non-empty layer set whose boundary channels all resolve and
whose per-layer transfer-group capacities fit in sixteen bits,
`calc_hw_infer_batch_count` succeeds and its batch count is the minimum of
the per-layer capacities (it is one of them and bounds all of them from
below). -/
theorem c4_calc_hw_infer_batch_count (layer_caps : List Nat)
    (hne : layer_caps ≠ [])
    (hbound : ∀ c ∈ layer_caps, c ≤ UINT16_MAX) :
    ∃ batch_count, calc_hw_infer_batch_count (layer_caps.map some) = .ok batch_count
      ∧ batch_count ∈ layer_caps ∧ ∀ c ∈ layer_caps, batch_count ≤ c := by
  refine ⟨layer_caps.foldl min UINT16_MAX, ?_, ?_, (foldl_min_le layer_caps UINT16_MAX).2⟩
  · unfold calc_hw_infer_batch_count
    exact calc_go_map_some layer_caps UINT16_MAX
  · rcases foldl_min_mem layer_caps UINT16_MAX with h | h
    · rcases List.exists_mem_of_ne_nil layer_caps hne with ⟨c0, hc0⟩
      have hle := (foldl_min_le layer_caps UINT16_MAX).2 c0 hc0
      have hge : c0 ≤ layer_caps.foldl min UINT16_MAX := by
        rw [h]; exact hbound c0 hc0
      rw [le_antisymm hle hge]
      exact hc0
    · exact h

/-- Witness for C4 at the spec's example: per-layer capacities {10, 7, 12}
yield batch count 7. -/
theorem c4_witness :
    (([10, 7, 12] : List Nat) ≠ [] ∧ (∀ c ∈ ([10, 7, 12] : List Nat), c ≤ UINT16_MAX))
    ∧ calc_hw_infer_batch_count [some 10, some 7, some 12] = .ok 7
    ∧ (∃ batch_count,
        calc_hw_infer_batch_count (([10, 7, 12] : List Nat).map some) = .ok batch_count
        ∧ batch_count ∈ ([10, 7, 12] : List Nat)
        ∧ ∀ c ∈ ([10, 7, 12] : List Nat), batch_count ≤ c) :=
  ⟨⟨by decide, by decide⟩, rfl,
    c4_calc_hw_infer_batch_count [10, 7, 12] (by decide) (by decide)⟩

theorem program_desc_loop_ok (program_last_descriptor : Nat → Nat → Except HailoStatus Nat)
    (single_transfer_size dynamic_batch_size : Nat) :
    ∀ (idxs : List (Nat × Nat)) (off : Nat) (events : List DescProgramEvent) (final : Nat),
      program_desc_loop program_last_descriptor single_transfer_size dynamic_batch_size
          idxs off = .ok (events, final) →
      events.map (fun ev => (ev.batch_index, ev.transfer_index)) = idxs
      ∧ ∀ ev ∈ events, ev.interrupts_domain =
          (if ev.transfer_index = dynamic_batch_size - 1 then InterruptsDomain.DEVICE
           else InterruptsDomain.NONE) := by
  intro idxs
  induction idxs with
  | nil =>
    intro off events final h
    simp only [program_desc_loop, Except.ok.injEq, Prod.mk.injEq] at h
    obtain ⟨hev, -⟩ := h
    subst hev
    simp
  | cons p rest ih =>
    intro off events final h
    obtain ⟨bi, ti⟩ := p
    simp only [program_desc_loop] at h
    split at h
    · split at h
      · rename_i evs f hrec
        simp only [Except.ok.injEq, Prod.mk.injEq] at h
        obtain ⟨hev, -⟩ := h
        have ihh := ih _ evs f hrec
        subst hev
        constructor
        · simp only [List.map_cons, ihh.1]
        · intro ev hev
          rcases List.mem_cons.mp hev with hev | hev
          · subst hev; rfl
          · exact ihh.2 ev hev
      · exact absurd h (by simp)
    · exact absurd h (by simp)

theorem countP_range_last (dynamic_batch_size : Nat) (hdbs : 1 ≤ dynamic_batch_size) :
    (List.range dynamic_batch_size).countP
      (fun ti => ti == dynamic_batch_size - 1) = 1 := by
  have hmem : dynamic_batch_size - 1 ∈ List.range dynamic_batch_size :=
    List.mem_range.mpr (by omega)
  have h := List.count_eq_one_of_mem (List.nodup_range dynamic_batch_size) hmem
  simpa [List.count] using h

theorem countP_hw_only_flow_indices (dynamic_batch_size : Nat)
    (hdbs : 1 ≤ dynamic_batch_size) : ∀ batch_count : Nat,
    (hw_only_flow_indices batch_count dynamic_batch_size).countP
      (fun pr => pr.snd == dynamic_batch_size - 1) = batch_count := by
  intro batch_count
  induction batch_count with
  | zero => simp [hw_only_flow_indices]
  | succ n ih =>
    unfold hw_only_flow_indices at ih ⊢
    rw [List.range_succ, List.flatMap_append, List.countP_append, ih]
    simp only [List.flatMap_cons, List.flatMap_nil, List.append_nil, List.countP_map]
    have : (fun pr => pr.snd == dynamic_batch_size - 1) ∘
        (fun ti => ((n : Nat), ti)) = fun ti => ti == dynamic_batch_size - 1 := rfl
    rw [this, countP_range_last dynamic_batch_size hdbs]

/-- C7: whenever the hardware-only descriptor programming succeeds, every
programmed transfer's interrupt domain raises a device interrupt exactly
when the transfer is the last of its `dynamic_batch_size` group, the
transfers cover the full batch/transfer index grid in order, and exactly
`batch_count` device interrupts are programmed. -/
theorem c7_program_desc_for_hw_only_flow
    (program_last_descriptor : Nat → Nat → Except HailoStatus Nat)
    (single_transfer_size dynamic_batch_size batch_count : Nat)
    (hdbs : 1 ≤ dynamic_batch_size)
    (events : List DescProgramEvent) (total : Nat)
    (hok : program_desc_for_hw_only_flow program_last_descriptor single_transfer_size
      dynamic_batch_size batch_count = .ok (events, total)) :
    (∀ ev ∈ events, (ev.interrupts_domain = InterruptsDomain.DEVICE ↔
        ev.transfer_index = dynamic_batch_size - 1))
    ∧ (events.filter
        (fun ev => ev.interrupts_domain == InterruptsDomain.DEVICE)).length = batch_count
    ∧ events.map (fun ev => (ev.batch_index, ev.transfer_index)) =
        hw_only_flow_indices batch_count dynamic_batch_size := by
  unfold program_desc_for_hw_only_flow at hok
  split at hok
  case h_2 => exact absurd hok (by simp)
  case h_1 evs acc hloop =>
    split at hok
    case isFalse => exact absurd hok (by simp)
    case isTrue hacc =>
      simp only [Except.ok.injEq, Prod.mk.injEq] at hok
      obtain ⟨hev, -⟩ := hok
      subst hev
      obtain ⟨hmap, hdom⟩ := program_desc_loop_ok program_last_descriptor
        single_transfer_size dynamic_batch_size
        (hw_only_flow_indices batch_count dynamic_batch_size) 0 evs acc hloop
      refine ⟨?_, ?_, hmap⟩
      · intro ev hev
        have := hdom ev hev
        by_cases hti : ev.transfer_index = dynamic_batch_size - 1
        · rw [if_pos hti] at this
          simp [this, hti]
        · rw [if_neg hti] at this
          simp [this, hti]
      · rw [← List.countP_eq_length_filter]
        have hcongr : evs.countP
            (fun ev => ev.interrupts_domain == InterruptsDomain.DEVICE) =
            evs.countP (fun ev => ev.transfer_index == dynamic_batch_size - 1) := by
          apply List.countP_congr
          intro ev hev
          have := hdom ev hev
          by_cases hti : ev.transfer_index = dynamic_batch_size - 1
          · rw [if_pos hti] at this
            simp [this, hti]
          · rw [if_neg hti] at this
            simp [this, hti]
        rw [hcongr]
        have hmapc : evs.countP (fun ev => ev.transfer_index == dynamic_batch_size - 1) =
            (evs.map (fun ev => (ev.batch_index, ev.transfer_index))).countP
              (fun pr => pr.snd == dynamic_batch_size - 1) := by
          rw [List.countP_map]
          rfl
        rw [hmapc, hmap, countP_hw_only_flow_indices dynamic_batch_size hdbs]

/-- Witness for C7 at a concrete run: a constant one-descriptor oracle,
dynamic batch size 2, batch count 3 — six programmed transfers, device
interrupts exactly at transfer index 1, three in total. -/
theorem c7_witness :
    (1 ≤ 2
      ∧ program_desc_for_hw_only_flow (fun _ _ => .ok 1) 16 2 3 =
          .ok ([{ batch_index := 0, transfer_index := 0,
                  interrupts_domain := InterruptsDomain.NONE, desc_offset := 0 },
                { batch_index := 0, transfer_index := 1,
                  interrupts_domain := InterruptsDomain.DEVICE, desc_offset := 1 },
                { batch_index := 1, transfer_index := 0,
                  interrupts_domain := InterruptsDomain.NONE, desc_offset := 2 },
                { batch_index := 1, transfer_index := 1,
                  interrupts_domain := InterruptsDomain.DEVICE, desc_offset := 3 },
                { batch_index := 2, transfer_index := 0,
                  interrupts_domain := InterruptsDomain.NONE, desc_offset := 4 },
                { batch_index := 2, transfer_index := 1,
                  interrupts_domain := InterruptsDomain.DEVICE, desc_offset := 5 }], 6))
    ∧ (([{ batch_index := 0, transfer_index := 0,
           interrupts_domain := InterruptsDomain.NONE, desc_offset := 0 },
         { batch_index := 0, transfer_index := 1,
           interrupts_domain := InterruptsDomain.DEVICE, desc_offset := 1 },
         { batch_index := 1, transfer_index := 0,
           interrupts_domain := InterruptsDomain.NONE, desc_offset := 2 },
         { batch_index := 1, transfer_index := 1,
           interrupts_domain := InterruptsDomain.DEVICE, desc_offset := 3 },
         { batch_index := 2, transfer_index := 0,
           interrupts_domain := InterruptsDomain.NONE, desc_offset := 4 },
         { batch_index := 2, transfer_index := 1,
           interrupts_domain := InterruptsDomain.DEVICE, desc_offset := 5 }]
          : List DescProgramEvent).filter
        (fun ev => ev.interrupts_domain == InterruptsDomain.DEVICE)).length = 3 :=
  ⟨⟨by decide, rfl⟩,
    (c7_program_desc_for_hw_only_flow (fun _ _ => .ok 1) 16 2 3 (by decide) _ 6 rfl).2.1⟩

theorem find_network_index_getElem (index_map : List String) (network_name : String) :
    ∀ i, find_network_index index_map network_name = some i →
      index_map[i]? = some network_name := by
  induction index_map with
  | nil => intro i h; simp [find_network_index] at h
  | cons nm rest ih =>
    intro i h
    simp only [find_network_index] at h
    by_cases hnm : nm = network_name
    · rw [if_pos hnm] at h
      obtain rfl : i = 0 := by simpa using h.symm
      simpa using hnm
    · rw [if_neg hnm] at h
      cases hf : find_network_index rest network_name with
      | none => rw [hf] at h; simp at h
      | some j =>
        rw [hf] at h
        obtain rfl : i = j + 1 := by simpa using h.symm
        simpa using ih j hf

theorem find_network_index_none (index_map : List String) (network_name : String) :
    find_network_index index_map network_name = none ↔ network_name ∉ index_map := by
  induction index_map with
  | nil => simp [find_network_index]
  | cons nm rest ih =>
    simp only [find_network_index, List.mem_cons]
    by_cases hnm : nm = network_name
    · simp [hnm]
    · rw [if_neg hnm, Option.map_eq_none', ih]
      constructor
      · intro h hmem
        rcases hmem with hmem | hmem
        · exact hnm hmem.symm
        · exact h hmem
      · intro h hmem
        exact h (Or.inr hmem)

theorem fill_go_props (params : NetworkParams) (index_map : List String) :
    ∀ (rest : NetworkParams) (arr res : List (Option Nat)),
      index_map.length ≤ arr.length →
      fill_network_batch_size_go params index_map rest arr = .ok res →
      (∀ p ∈ rest, ∃ i v, find_network_index index_map p.fst = some i ∧
          get_network_batch_size params p.fst = .ok v ∧ res[i]? = some (some v))
      ∧ (∀ j : Nat, (∀ p ∈ rest, find_network_index index_map p.fst ≠ some j) →
          res[j]? = arr[j]?) := by
  intro rest
  induction rest with
  | nil =>
    intro arr res hlen h
    simp only [fill_network_batch_size_go, Except.ok.injEq] at h
    subst h
    exact ⟨by simp, fun j _ => rfl⟩
  | cons p ps ih =>
    intro arr res hlen h
    simp only [fill_network_batch_size_go] at h
    split at h
    case h_2 => exact absurd h (by simp)
    case h_1 i hfind =>
      split at h
      case h_2 e hget => exact absurd h (by simp)
      case h_1 v hget =>
        have hlen2 : index_map.length ≤ (arr.set i (some v)).length := by
          simpa using hlen
        obtain ⟨hA, hB⟩ := ih (arr.set i (some v)) res hlen2 h
        have hi_lt : i < index_map.length := by
          have hg := find_network_index_getElem index_map p.fst i hfind
          rcases List.getElem?_eq_some_iff.mp hg with ⟨hlt, -⟩
          exact hlt
        have hi_arr : i < arr.length := lt_of_lt_of_le hi_lt hlen
        constructor
        · intro q hq
          rcases List.mem_cons.mp hq with hq | hq
          · subst hq
            refine ⟨i, v, hfind, hget, ?_⟩
            by_cases hlater : ∀ r ∈ ps, find_network_index index_map r.fst ≠ some i
            · rw [hB i hlater, List.getElem?_set_self hi_arr]
            · push_neg at hlater
              obtain ⟨r, hr, hri⟩ := hlater
              obtain ⟨i2, v2, hf2, hg2, hres2⟩ := hA r hr
              have hi2 : i2 = i := Option.some.inj (hf2.symm.trans hri)
              subst hi2
              have hname : r.fst = q.fst := by
                have h1 := find_network_index_getElem index_map q.fst i2 hfind
                have h2 := find_network_index_getElem index_map r.fst i2 hf2
                rw [h1] at h2
                exact (Option.some.inj h2).symm
              have hv : v2 = v := by
                rw [hname, hget] at hg2
                exact (Except.ok.inj hg2).symm
              rw [← hv]
              exact hres2
          · exact hA q hq
        · intro j hj
          have hjp := hj p (List.mem_cons_self p ps)
          have hij : i ≠ j := fun hij => hjp (hij ▸ hfind)
          rw [hB j (fun r hr => hj r (List.mem_cons_of_mem p hr)),
            List.getElem?_set_ne hij]

theorem fill_go_notfound (params : NetworkParams) (index_map : List String) :
    ∀ (rest : NetworkParams) (arr : List (Option Nat)),
      (∀ p ∈ rest, p ∈ params) →
      (∃ p ∈ rest, p.fst ∉ index_map) →
      fill_network_batch_size_go params index_map rest arr =
        .error HailoStatus.NOT_FOUND := by
  intro rest
  induction rest with
  | nil =>
    intro arr _ hex
    simp at hex
  | cons p ps ih =>
    intro arr hsub hex
    simp only [fill_network_batch_size_go]
    split
    case h_2 => rfl
    case h_1 i hfind =>
      have hpmem : p.fst ∈ index_map := by
        by_contra hno
        rw [(find_network_index_none index_map p.fst).mpr hno] at hfind
        exact absurd hfind (by simp)
      obtain ⟨q, hq, hqnot⟩ := hex
      have hqps : q ∈ ps := by
        rcases List.mem_cons.mp hq with hq | hq
        · exact absurd hpmem (hq ▸ hqnot)
        · exact hq
      split
      case h_1 v hget =>
        exact ih (arr.set i (some v)) (fun r hr => hsub r (List.mem_cons_of_mem p hr))
          ⟨q, hqps, hqnot⟩
      case h_2 e hget =>
        obtain ⟨v, hv⟩ := find_in_params_ok p (hsub p (List.mem_cons_self p ps)) rfl
        rw [hv] at hget
        exact absurd hget (by simp)

/-- C2: `fill_network_batch_size` writes each configured network's
(substituted) batch size at that network's position in the
insertion-ordered network-name table, leaves positions of unconfigured
names unset, succeeds on the spec's example producing `[4, <unset>, 2]`,
and fails with not-found whenever some configured network name is absent
from the table. -/
theorem c2_fill_network_batch_size (params : NetworkParams) (index_map : List String) :
    (∀ res : List (Option Nat), fill_network_batch_size params index_map
        (List.replicate index_map.length none) = .ok res →
      (∀ p ∈ params, ∃ i v, find_network_index index_map p.fst = some i ∧
          get_network_batch_size params p.fst = .ok v ∧ res[i]? = some (some v))
      ∧ (∀ (j : Nat) (nm : String), index_map[j]? = some nm →
          nm ∉ params.map Prod.fst → res[j]? = some none))
    ∧ ((∃ p ∈ params, p.fst ∉ index_map) →
        fill_network_batch_size params index_map
          (List.replicate index_map.length none) = .error HailoStatus.NOT_FOUND)
    ∧ fill_network_batch_size [("a", 4), ("c", 2)] ["a", "b", "c"]
        (List.replicate 3 none) = .ok [some 4, none, some 2] := by
  refine ⟨?_, ?_, rfl⟩
  · intro res hok
    have hlen : index_map.length ≤ (List.replicate index_map.length
        (none : Option Nat)).length := by simp
    obtain ⟨hA, hB⟩ := fill_go_props params index_map params
      (List.replicate index_map.length none) res hlen hok
    refine ⟨hA, ?_⟩
    intro j nm hj hnm
    have hnohit : ∀ p ∈ params, find_network_index index_map p.fst ≠ some j := by
      intro p hp hfind
      have hg := find_network_index_getElem index_map p.fst j hfind
      rw [hj] at hg
      have : nm = p.fst := Option.some.inj hg
      exact hnm (this ▸ List.mem_map.mpr ⟨p, hp, rfl⟩)
    rw [hB j hnohit]
    have hjlt : j < index_map.length := by
      rcases List.getElem?_eq_some_iff.mp hj with ⟨hlt, -⟩
      exact hlt
    simp [List.getElem?_replicate, hjlt]
  · intro hex
    exact fill_go_notfound params index_map params
      (List.replicate index_map.length none) (fun p hp => hp) hex

/-- Witness for C2: a configured network name absent from the table makes
the fill fail with not-found. -/
theorem c2_witness :
    (∃ p ∈ ([("a", (4 : Nat)), ("d", 2)] : NetworkParams), p.fst ∉ ["a", "b", "c"])
    ∧ fill_network_batch_size [("a", 4), ("d", 2)] ["a", "b", "c"]
        (List.replicate 3 none) = .error HailoStatus.NOT_FOUND :=
  ⟨⟨("d", 2), by simp, by decide⟩,
    (c2_fill_network_batch_size [("a", 4), ("d", 2)] ["a", "b", "c"]).2.1
      ⟨("d", 2), by simp, by decide⟩⟩

end HailoRT
